import Mathlib

set_option maxRecDepth 20000

/-!
Shallow embedding of the citation-resolution engine in `cite_md.py`.

Documents and bibliography sources are modelled as `List Char`.  Each
definition below mirrors one construct of the Python source:

* `matchCite` / `scanAux` / `subAux` model the regex `\cite{([^}]+)}`
  together with `finditer` (scanning) and `sub` (replacement);
* `matchHeader`, `braceWalk`, `beforeLastBrace`, `matchField`,
  `fieldsOfBody`, `parseBibAux` model `parse_bib_file`;
* `formatApaAuthors`, `formatNumberedReference` model the formatter;
* `citedKeysList`, `citationMap`, `modifiedText`, `referencesList`,
  `finalOutput` model the orchestration in `main`.

Python dictionaries are modelled as association lists with
insert-or-overwrite (`insertKV`) and first-match lookup (`List.lookup`),
which matches dict assignment and `in`/`[]` observation.
-/

/-- Whitespace test mirroring Python `str.strip` / `\s` on the ASCII inputs
the engine deals with. -/
def isWS (c : Char) : Bool := c.isWhitespace

/-- Word-character test mirroring the regex class `\w`. -/
def isWordChar (c : Char) : Bool := c.isAlphanum || c == '_'

/-- Python `str.strip()`. -/
def trimChars (s : List Char) : List Char :=
  ((s.dropWhile isWS).reverse.dropWhile isWS).reverse

/-- Python `str.split(sep)` for a single-character separator: keeps empty
pieces, always returns at least one piece. -/
def splitOnChar (sep : Char) : List Char → List (List Char)
  | [] => [[]]
  | c :: cs =>
    if c == sep then [] :: splitOnChar sep cs
    else
      match splitOnChar sep cs with
      | [] => [[c]]
      | g :: gs => (c :: g) :: gs

/-- Python `str.split(sep)` for a multi-character separator, fuelled by the
input length (each step consumes at least one character). -/
def splitOnSepAux (sep : List Char) : Nat → List Char → List Char → List (List Char)
  | 0, s, acc => [acc.reverse ++ s]
  | fuel+1, s, acc =>
    if sep.isPrefixOf s then acc.reverse :: splitOnSepAux sep fuel (s.drop sep.length) []
    else
      match s with
      | [] => [acc.reverse]
      | c :: cs => splitOnSepAux sep fuel cs (c :: acc)

/-- Python `str.split(sep)` (multi-character separator). -/
def splitOnSep (sep : List Char) (s : List Char) : List (List Char) :=
  splitOnSepAux sep s.length s []

/-- Python `str.split()` with no argument: split on whitespace runs,
dropping empty pieces. -/
def wordsOfAux : List Char → List Char → List (List Char)
  | [], acc => if acc.isEmpty then [] else [acc.reverse]
  | c :: cs, acc =>
    if isWS c then
      if acc.isEmpty then wordsOfAux cs []
      else acc.reverse :: wordsOfAux cs []
    else wordsOfAux cs (c :: acc)

/-- Python `str.split()` with no argument. -/
def wordsOf (s : List Char) : List (List Char) := wordsOfAux s []

/-- Python `s.rsplit(closing_brace, 1)[0]`: everything before the last
closing brace, or `s` unchanged when there is none. -/
def beforeLastBrace (s : List Char) : List Char :=
  if s.contains '\x7d' then ((s.reverse.dropWhile (fun c => !(c == '\x7d'))).tail).reverse
  else s

/-- Dict assignment `m[k] = v`: overwrite in place if the key exists
(keeping its position, as Python dicts keep insertion order), otherwise
append at the end.  The maps built by the engine never hold a key twice, so
replacing the first hit is the same as replacing every hit. -/
def insertKV {β : Type} (m : List (String × β)) (k : String) (v : β) : List (String × β) :=
  match m with
  | [] => [(k, v)]
  | p :: ps => if p.1 = k then (k, v) :: ps else p :: insertKV ps k v

/-- Attempt to match the citation regex `\cite{([^}]+)}` at the head of the
input; on success return the group (the text between the braces) and the
remainder after the whole match. -/
def matchCite : List Char → Option (List Char × List Char)
  | '\\' :: 'c' :: 'i' :: 't' :: 'e' :: '\x7b' :: rest =>
    let inner := rest.takeWhile (fun c => !(c == '\x7d'))
    match inner, rest.drop inner.length with
    | [], _ => none
    | _ :: _, [] => none
    | _ :: _, _ :: rs => some (inner, rs)
  | _ => none

/-- The scanning pass of `re.finditer` for the citation regex: all group
contents in document order.  Fuelled by the input length; every step
consumes at least one character. -/
def scanAux : Nat → List Char → List (List Char)
  | 0, _ => []
  | _+1, [] => []
  | fuel+1, c :: cs =>
    match matchCite (c :: cs) with
    | some (inner, rest) => inner :: scanAux fuel rest
    | none => scanAux fuel cs

/-- All citation-marker groups of a document, in order of appearance. -/
def scanCites (s : List Char) : List (List Char) := scanAux s.length s

/-- The replacement pass of `re.sub` for the citation regex: each match is
replaced by `f` applied to its group, other characters pass through. -/
def subAux (f : List Char → List Char) : Nat → List Char → List Char
  | 0, s => s
  | _+1, [] => []
  | fuel+1, c :: cs =>
    match matchCite (c :: cs) with
    | some (inner, rest) => f inner ++ subAux f fuel rest
    | none => c :: subAux f fuel cs

/-- Python `[k.strip() for k in keys_str.split(',')]` applied to a marker
group. -/
def splitKeys (inner : List Char) : List String :=
  (splitOnChar ',' inner).map (fun l => String.mk (trimChars l))

/-- Every key of every marker of the document, markers in document order and
keys in left-to-right order within each marker. -/
def allKeys (doc : List Char) : List String := (scanCites doc).flatMap splitKeys

/-- One step of filling the `cited_keys` ordered dict: `if key not in
cited_keys: cited_keys[key] = None`. -/
def insertKey (acc : List String) (k : String) : List String :=
  if k ∈ acc then acc else acc ++ [k]

/-- The ordered list of distinct cited keys (`cited_keys_list`). -/
def citedKeysList (doc : List Char) : List String :=
  (allKeys doc).foldl insertKey []

/-- The dict comprehension `{key: i + 1 for i, key in
enumerate(cited_keys_list)}`. -/
def citationMap (doc : List Char) : List (String × Nat) :=
  (citedKeysList doc).enum.foldl (fun m p => insertKV m p.2 (p.1 + 1)) []

/-- Lookup in the citation map (`citation_map[key]` guarded by `key in
citation_map`). -/
def citationNumber (doc : List Char) (k : String) : Option Nat :=
  List.lookup k (citationMap doc)

/-- The token emitted for one key inside a rewritten marker: the assigned
number when the key is in the citation map, the literal `?` otherwise. -/
def numTok (cn : String → Option Nat) (k : String) : String :=
  match cn k with
  | some n => Nat.repr n
  | none => "?"

/-- The body of `citation_replacer`: `[<tokens joined by comma-space>]`. -/
def renderMarker (cn : String → Option Nat) (inner : List Char) : List Char :=
  ("[" ++ String.intercalate ", " ((splitKeys inner).map (numTok cn)) ++ "]").data

/-- Model of `citation_pattern.sub(citation_replacer, markdown_text)`. -/
def modifiedText (doc : List Char) : List Char :=
  subAux (renderMarker (citationNumber doc)) doc.length doc

/-- The keys for which `citation_replacer` would print a not-found warning
to stderr, in emission order. -/
def citeWarnKeys (doc : List Char) : List String :=
  (scanCites doc).flatMap
    (fun inner => (splitKeys inner).filter (fun k => (citationNumber doc k).isNone))

/-- Attempt to match the entry-header regex `@(\w+)\s*\{\s*([^,]+),` at the
head of the input; on success return the stripped citation key and the
remainder after the comma (where `finditer` resumes and where the brace walk
starts). -/
def matchHeader : List Char → Option (String × List Char)
  | '@' :: rest =>
    let word := rest.takeWhile isWordChar
    if word.isEmpty then none
    else
      match (rest.drop word.length).dropWhile isWS with
      | '\x7b' :: r2 =>
        let u := r2.takeWhile (fun c => !(c == ','))
        if u.isEmpty then none
        else
          match r2.drop u.length with
          | ',' :: r3 => some (String.mk (trimChars u), r3)
          | _ => none
      | _ => none
  | _ => none

/-- The brace-depth walk of `parse_bib_file`: starting at depth 1, collect
characters until the depth reaches 0; the character that closes the entry is
not collected (the loop breaks before appending it). -/
def braceWalk : Nat → List Char → List Char
  | _, [] => []
  | depth, c :: cs =>
    let d := if c == '\x7b' then depth + 1 else if c == '\x7d' then depth - 1 else depth
    if d == 0 then [] else c :: braceWalk d cs

/-- The per-line field match `re.match(r'(\w+)\s*=\s*\{(.*)\},?', line)`
followed by `group(2).strip().replace` removing every brace character, and
lower-casing of the field name. -/
def matchField (line : List Char) : Option (String × String) :=
  let name := line.takeWhile isWordChar
  if name.isEmpty then none
  else
    match (line.drop name.length).dropWhile isWS with
    | '=' :: r2 =>
      match r2.dropWhile isWS with
      | '\x7b' :: r3 =>
        if r3.contains '\x7d' then
          some (String.mk (name.map Char.toLower),
            String.mk ((trimChars (beforeLastBrace r3)).filter
              (fun c => !(c == '\x7b') && !(c == '\x7d'))))
        else none
      | _ => none
    | _ => none

/-- The field-extraction loop over the lines of one entry body. -/
def fieldsOfBody (body : List Char) : List (String × String) :=
  (splitOnChar '\n' body).foldl
    (fun fs line =>
      let l := trimChars line
      if l.isEmpty then fs
      else
        match matchField l with
        | some (k, v) => insertKV fs k v
        | none => fs)
    []

/-- The entry loop of `parse_bib_file`: find each header, extract the body
by brace counting, cut at the last closing brace (`rsplit`), parse fields,
and record the entry only when at least one field was parsed.  Scanning
resumes right after the header match, as `finditer` does. -/
def parseBibAux : Nat → List Char → List (String × List (String × String)) →
    List (String × List (String × String))
  | 0, _, es => es
  | _+1, [], es => es
  | fuel+1, c :: cs, es =>
    match matchHeader (c :: cs) with
    | some (key, rest) =>
      let fields := fieldsOfBody (beforeLastBrace (braceWalk 1 rest))
      parseBibAux fuel rest (if fields.isEmpty then es else insertKV es key fields)
    | none => parseBibAux fuel cs es

/-- Model of `parse_bib_file` applied to the raw text of the bibliography source. -/
def parseBib (content : List Char) : List (String × List (String × String)) :=
  parseBibAux content.length content []

/-- One author of `format_apa_authors`: surname is the last whitespace-split
part, every earlier part contributes its first character plus a dot. -/
def formatOneAuthor (ps : List (List Char)) : Option String :=
  match ps.getLast? with
  | none => none
  | some lastName =>
    some (String.mk lastName ++ ", " ++
      String.intercalate " " (ps.dropLast.map (fun p => String.mk (p.take 1) ++ ".")))

/-- Model of `format_apa_authors`. -/
def formatApaAuthors (s : String) : String :=
  if s == "" then "N/A"
  else
    String.intercalate ", "
      (((splitOnSep (" and ".data) s.data).map trimChars).filterMap
        (fun a => formatOneAuthor (wordsOf a)))

/-- The replacement string of `pages.replace('--', ...)` in the source: the
three characters U+00E2, U+20AC, U+201C (a mojibake en-dash). -/
def mojibakeDash : List Char := [Char.ofNat 226, Char.ofNat 8364, Char.ofNat 8220]

/-- Python `pages.replace('--', <mojibake dash>)`. -/
def replaceDoubleDash : List Char → List Char
  | '-' :: '-' :: rest => mojibakeDash ++ replaceDoubleDash rest
  | c :: cs => c :: replaceDoubleDash cs
  | [] => []

/-- Model of `format_numbered_reference`. -/
def formatNumberedReference (entry : List (String × String)) (number : Nat) : String :=
  let authorsRaw := (List.lookup "author" entry).getD "N/A"
  let authors := formatApaAuthors authorsRaw
  let year := (List.lookup "year" entry).getD "N/A"
  let title := (List.lookup "title" entry).getD "N/A"
  let journal := (List.lookup "journal" entry).getD ""
  let volume := (List.lookup "volume" entry).getD ""
  let numberField := (List.lookup "number" entry).getD ""
  let pages := (List.lookup "pages" entry).getD ""
  let parts1 := ["**[" ++ Nat.repr number ++ "]**", authors, "(" ++ year ++ ").", title ++ "."]
  let parts2 := if journal == "" then parts1 else parts1 ++ ["*" ++ journal ++ "*."]
  let issueInfo := volume ++ (if numberField == "" then "" else "(" ++ numberField ++ ")")
  let parts3 := if issueInfo == "" then parts2 else parts2 ++ [issueInfo ++ ","]
  let parts4 := if pages == "" then parts3
    else parts3 ++ ["pp. " ++ String.mk (replaceDoubleDash pages.data)]
  String.intercalate " " (parts4.filter (fun p => !(p == "")))

/-- The reference-list loop of `main`: enumerate the ordered distinct keys,
format the entries that exist in the bibliography map, silently skip the
rest. -/
def referencesList (bib : List (String × List (String × String))) (doc : List Char) :
    List String :=
  (citedKeysList doc).enum.filterMap (fun p =>
    match List.lookup p.2 bib with
    | some e => some (formatNumberedReference e (p.1 + 1))
    | none => none)

/-- The final stdout of `main`: the rewritten text plus newline, followed by
the reference section only when the reference list is non-empty. -/
def finalOutput (bib : List (String × List (String × String))) (doc : List Char) :
    List Char :=
  modifiedText doc ++ '\n' ::
    (if referencesList bib doc = [] then []
     else "\n\n## References\n".data ++
       (String.intercalate "; " (referencesList bib doc)).data ++ ['\n'])

/-- Substring test: does `pat` occur contiguously inside the second list? -/
def containsSeq (pat : List Char) : List Char → Bool
  | [] => pat.isEmpty
  | c :: cs => pat.isPrefixOf (c :: cs) || containsSeq pat cs

/-- The number token the rewrite step would use for key `k` of a marker with
group `inner` (none when `k` is not one of the marker's keys).  This is an
observation on `renderMarker`: the rendered marker is exactly the bracketed
join of `numTok` over the marker's keys. -/
def markerTokenOf (doc : List Char) (inner : List Char) (k : String) : Option String :=
  if k ∈ splitKeys inner then some (numTok (citationNumber doc) k) else none

def bibC3 : List Char :=
  ("@article\x7bsmith2020,\n  author = \x7bJohn Smith and Jane Doe\x7d,\n  year = \x7b2020\x7d,\n  title = \x7bA Study\x7d,\n  journal = \x7bJournal of X\x7d,\n  volume = \x7b5\x7d,\n  number = \x7b2\x7d,\n  pages = \x7b10--20\x7d\n\x7d\n").data

def docC3 : List Char := ("Text \\cite\x7bsmith2020\x7d.").data

def bibC1 : List Char :=
  ("@article\x7bbar,\n  author = \x7bAnn Bee\x7d,\n  year = \x7b1999\x7d,\n  title = \x7bT\x7d\n\x7d\n").data

def docC1 : List Char := ("See \\cite\x7bfoo\x7d.").data

def bibC9 : List Char :=
  ("@article\x7bdup,\n  author = \x7bFirst Author\x7d,\n  year = \x7b2001\x7d,\n  title = \x7bFirst Title\x7d\n\x7d\n@article\x7bdup,\n  author = \x7bSecond Author\x7d,\n  year = \x7b2002\x7d,\n  title = \x7bSecond Title\x7d\n\x7d\n").data

def bibC2 : List Char :=
  ("@article\x7bk,\n  author = \x7bA\x7d,\n  year = \x7b2020\x7d\n\x7d\n").data

/-!
General lemmas about the association-list model of Python dictionaries.
-/

/-- Dict assignment followed by lookup of the same key yields the assigned
value. -/
theorem lookup_insertKV {β : Type} (m : List (String × β)) (k : String) (v : β) :
    List.lookup k (insertKV m k v) = some v := by
  induction m with
  | nil => simp [insertKV, List.lookup]
  | cons p ps ih =>
    obtain ⟨a, b⟩ := p
    by_cases ha : a = k
    · rw [show insertKV ((a, b) :: ps) k v = (k, v) :: ps from by simp [insertKV, ha]]
      rw [List.lookup_cons]
      simp
    · rw [show insertKV ((a, b) :: ps) k v = (a, b) :: insertKV ps k v from by
        simp [insertKV, ha]]
      rw [List.lookup_cons]
      have hka : (k == a) = false := by simp [Ne.symm ha]
      simp [hka, ih]

/-- Dict assignment with key `k` leaves lookups of other keys unchanged. -/
theorem lookup_insertKV_ne {β : Type} (m : List (String × β)) (k a : String) (v : β)
    (h : a ≠ k) :
    List.lookup a (insertKV m k v) = List.lookup a m := by
  induction m with
  | nil =>
    have hak : (a == k) = false := by simp [h]
    simp [insertKV, List.lookup, hak]
  | cons p ps ih =>
    obtain ⟨c, w⟩ := p
    by_cases hc : c = k
    · rw [show insertKV ((c, w) :: ps) k v = (k, v) :: ps from by simp [insertKV, hc]]
      rw [List.lookup_cons, List.lookup_cons]
      have hak : (a == k) = false := by simp [h]
      have hc2 : a ≠ c := fun he => h (he.trans hc)
      have hac : (a == c) = false := by simp [hc2]
      simp [hak, hac]
    · rw [show insertKV ((c, w) :: ps) k v = (c, w) :: insertKV ps k v from by
        simp [insertKV, hc]]
      rw [List.lookup_cons, List.lookup_cons]
      by_cases hac : a = c
      · simp [hac]
      · have : (a == c) = false := by simp [hac]
        simp [this, ih]

/-!
Claim-specific theorems.
-/

/-- C9: when the bibliography text contains two entries with the same
citation key, the parse result maps that key to the fields of the later
entry (`entries[cite_key] = fields` is a last-wins dict overwrite), and no
failure occurs.  First conjunct: overwriting is last-wins for every map
state; second conjunct: end-to-end evaluation on a bibliography defining
`dup` twice. -/
theorem c9_duplicate_key_last_wins :
    (∀ (es : List (String × List (String × String))) (k : String)
      (v : List (String × String)), List.lookup k (insertKV es k v) = some v) ∧
    List.lookup "dup" (parseBib bibC9)
      = some [("author", "Second Author"), ("year", "2002")] :=
  ⟨fun es k v => lookup_insertKV es k v, rfl⟩

/-- C1: at the failing input (document citing the undefined key `foo`,
bibliography defining only `bar`), the engine renders the assigned number
`[1]` instead of `?`, emits no not-found warning, and omits the reference
section entirely.  The `?`/warning branch of `citation_replacer` tests
membership in `citation_map`, which contains every scanned key, so it is
unreachable. -/
theorem c1_missing_key_renders_number :
    modifiedText docC1 = ("See [1].").data ∧
    citeWarnKeys docC1 = [] ∧
    List.lookup "foo" (parseBib bibC1) = none ∧
    citationNumber docC1 "foo" = some 1 ∧
    referencesList (parseBib bibC1) docC1 = [] ∧
    finalOutput (parseBib bibC1) docC1 = ("See [1].\n").data :=
  ⟨rfl, rfl, rfl, rfl, rfl, rfl⟩

/-- C2: the last field line of an entry is NOT extracted like the others:
the line `year = \x7b2020\x7d` matches the field shape when intact (first
conjunct), but the `rsplit` step cuts the body at the last closing brace, so
the parsed entry for `k` holds only the `author` field (second conjunct). -/
theorem c2_last_field_line_lost :
    matchField (("year = \x7b2020\x7d").data) = some ("year", "2020") ∧
    List.lookup "k" (parseBib bibC2) = some [("author", "A")] :=
  ⟨rfl, rfl⟩

/-- C3: evaluating the engine on the spec's own example.  The body is
`Text [1].` as claimed, but the reference string is
`**[1]** Smith, J., Doe, J. (2020). A Study. *Journal of X*. 5(2),` —
the `pages` field, being the last field line of the entry, is lost to the
`rsplit` cut, so no `pp. 10–20` fragment is rendered. -/
theorem c3_example_reference_lacks_pages :
    modifiedText docC3 = ("Text [1].").data ∧
    List.lookup "pages" ((List.lookup "smith2020" (parseBib bibC3)).getD []) = none ∧
    referencesList (parseBib bibC3) docC3
      = ["**[1]** Smith, J., Doe, J. (2020). A Study. *Journal of X*. 5(2),"] ∧
    finalOutput (parseBib bibC3) docC3
      = ("Text [1].\n\n\n## References\n**[1]** Smith, J., Doe, J. (2020). A Study. *Journal of X*. 5(2),\n").data :=
  ⟨rfl, rfl, rfl, rfl⟩

/-- C4 counterexample: an entry with author and year present but no title
still renders the placeholder `N/A` (for the missing title), refuting the
claim that no `N/A` appears for a missing title. -/
theorem c4_counterexample :
    List.lookup "title" [("author", "John Smith"), ("year", "2020")] = (none : Option String) ∧
    List.lookup "author" [("author", "John Smith"), ("year", "2020")] = some "John Smith" ∧
    List.lookup "year" [("author", "John Smith"), ("year", "2020")] = some "2020" ∧
    containsSeq (("N/A").data)
      (formatNumberedReference [("author", "John Smith"), ("year", "2020")] 1).data = true := by
  refine ⟨rfl, rfl, rfl, rfl⟩

/-- C4 amended: journal, volume, number and pages are silently omitted when
absent (no `N/A` anywhere in the first render), while a missing author,
year, or title each produce the literal `N/A` placeholder (the author one
rendered as `N/A, ` by the author formatter, giving a double space). -/
theorem c4_na_for_author_year_title :
    formatNumberedReference [("author", "John Smith"), ("year", "2020"), ("title", "A Study")] 1
      = "**[1]** Smith, J. (2020). A Study." ∧
    containsSeq (("N/A").data)
      (formatNumberedReference
        [("author", "John Smith"), ("year", "2020"), ("title", "A Study")] 1).data = false ∧
    formatNumberedReference [("author", "John Smith"), ("year", "2020")] 1
      = "**[1]** Smith, J. (2020). N/A." ∧
    formatNumberedReference [("author", "John Smith"), ("title", "A Study")] 1
      = "**[1]** Smith, J. (N/A). A Study." ∧
    formatNumberedReference [("year", "2020"), ("title", "A Study")] 1
      = "**[1]** N/A,  (2020). A Study." :=
  ⟨rfl, rfl, rfl, rfl, rfl⟩

/-- C5 counterexample: on the field line `title = \x7bA \x7bNested\x7d
Title\x7d,` the stored value is `A Nested Title` — the nested braces are
removed, not preserved, refuting the one-layer-stripping claim. -/
theorem c5_counterexample :
    matchField (("title = \x7bA \x7bNested\x7d Title\x7d,").data)
      = some ("title", "A Nested Title") ∧
    ("A Nested Title" : String) ≠ "A \x7bNested\x7d Title" :=
  ⟨rfl, by decide⟩

/-- C10: a marker with nothing between the braces is not a match (the
pattern needs at least one character inside), it is left verbatim by the
rewrite, and it contributes no key and no number. -/
theorem c10_empty_marker_ignored :
    (∀ rest : List Char,
      matchCite ('\\' :: 'c' :: 'i' :: 't' :: 'e' :: '\x7b' :: '\x7d' :: rest) = none) ∧
    modifiedText (("A \\cite\x7b\x7d B \\cite\x7bx\x7d").data)
      = ("A \\cite\x7b\x7d B [1]").data ∧
    citedKeysList (("A \\cite\x7b\x7d B \\cite\x7bx\x7d").data) = ["x"] ∧
    modifiedText (("A \\cite\x7b\x7d B").data) = ("A \\cite\x7b\x7d B").data ∧
    citedKeysList (("A \\cite\x7b\x7d B").data) = [] :=
  ⟨fun _ => rfl, rfl, rfl, rfl, rfl⟩

/-- C7: the number token rendered for a key is a function of the document
alone, not of the marker it occurs in, so repeated citations of one key
always show the same number; on the spec's example the two markers render
`[1, 2]` and `[2]`. -/
theorem c7_idempotent_numbering :
    (∀ (doc inner₁ inner₂ : List Char) (k : String),
      k ∈ splitKeys inner₁ → k ∈ splitKeys inner₂ →
      markerTokenOf doc inner₁ k = markerTokenOf doc inner₂ k) ∧
    modifiedText (("\\cite\x7ba,b\x7d and later \\cite\x7bb\x7d.").data)
      = ("[1, 2] and later [2].").data ∧
    citationNumber (("\\cite\x7ba,b\x7d and later \\cite\x7bb\x7d.").data) "a" = some 1 ∧
    citationNumber (("\\cite\x7ba,b\x7d and later \\cite\x7bb\x7d.").data) "b" = some 2 := by
  refine ⟨?_, rfl, rfl, rfl⟩
  intro doc inner₁ inner₂ k h1 h2
  simp [markerTokenOf, h1, h2]

/-- C7 witness: the general conjunct applied to the example document, with
both membership hypotheses discharged on the two concrete markers. -/
theorem c7_witness :
    ("b" ∈ splitKeys (("a,b").data)) ∧ ("b" ∈ splitKeys (("b").data)) ∧
    markerTokenOf (("\\cite\x7ba,b\x7d and later \\cite\x7bb\x7d.").data) (("a,b").data) "b"
      = markerTokenOf (("\\cite\x7ba,b\x7d and later \\cite\x7bb\x7d.").data) (("b").data) "b" :=
  ⟨by decide, by decide,
    c7_idempotent_numbering.1 (("\\cite\x7ba,b\x7d and later \\cite\x7bb\x7d.").data)
      (("a,b").data) (("b").data) "b" (by decide) (by decide)⟩

/-- C5 amended: the field match strips the one surrounding brace layer, and
the value cleanup then deletes every remaining brace character, so no
stored field value ever contains a brace (first conjunct, over all lines);
concrete renders of a plain and a nested value illustrate it. -/
theorem c5_value_braces_all_removed :
    (∀ line : List Char,
      ((matchField line).map
        (fun p => p.2.data.all (fun c => !(c == '\x7b') && !(c == '\x7d')))).getD true
        = true) ∧
    matchField (("title = \x7bSimple\x7d,").data) = some ("title", "Simple") ∧
    matchField (("title = \x7bA \x7bNested\x7d Title\x7d,").data)
      = some ("title", "A Nested Title") := by
  refine ⟨?_, rfl, rfl⟩
  intro line
  simp only [matchField]
  split
  · rfl
  · split
    · split
      · split
        · simp only [Option.map_some', Option.getD_some, List.all_eq_true]
          intro c hc
          have hmem := List.mem_filter.mp hc
          simpa using hmem.2
        · rfl
      · rfl
    · rfl

/-!
Machinery for the numbering theorem (C6): properties of the ordered-dict
fill `foldl insertKey` and of the enumerated citation map.
-/

/-- Filling the ordered key dict preserves the invariants: the accumulator
holds exactly the processed keys, without duplicates, ordered by position of
first appearance in the full key sequence `A`. -/
theorem foldl_insertKey_spec (A : List String) :
    ∀ (s p acc : List String), A = p ++ s →
      (∀ x, x ∈ acc ↔ x ∈ p) → acc.Nodup →
      acc.Pairwise (fun a b => A.indexOf a < A.indexOf b) →
      (∀ x ∈ acc, A.indexOf x < p.length) →
      (∀ x, x ∈ s.foldl insertKey acc ↔ x ∈ A) ∧
        (s.foldl insertKey acc).Nodup ∧
        (s.foldl insertKey acc).Pairwise (fun a b => A.indexOf a < A.indexOf b) := by
  intro s
  induction s with
  | nil =>
    intro p acc hA hmem hnd hpw _
    rw [List.foldl_nil]
    refine ⟨fun x => ?_, hnd, hpw⟩
    rw [hmem x, hA, List.append_nil]
  | cons k s ih =>
    intro p acc hA hmem hnd hpw hbd
    rw [List.foldl_cons]
    have hA2 : A = (p ++ [k]) ++ s := by rw [hA]; simp
    have hlen : (p ++ [k]).length = p.length + 1 := by simp
    by_cases hk : k ∈ acc
    · have he : insertKey acc k = acc := by simp [insertKey, hk]
      rw [he]
      refine ih (p ++ [k]) acc hA2 (fun x => ?_) hnd hpw (fun x hx => ?_)
      · rw [hmem x, List.mem_append, List.mem_singleton]
        constructor
        · intro hx; exact Or.inl hx
        · rintro (hx | rfl)
          · exact hx
          · exact (hmem _).mp hk
      · have := hbd x hx
        rw [hlen]
        omega
    · have he : insertKey acc k = acc ++ [k] := by simp [insertKey, hk]
      rw [he]
      have hkp : k ∉ p := fun hp => hk ((hmem k).mpr hp)
      have hidx : A.indexOf k = p.length := by
        rw [hA, List.indexOf_append_of_not_mem hkp, List.indexOf_cons_self]
        omega
      refine ih (p ++ [k]) (acc ++ [k]) hA2 (fun x => ?_) ?_ ?_ (fun x hx => ?_)
      · rw [List.mem_append, List.mem_append, List.mem_singleton, hmem x]
      · rw [List.nodup_append]
        refine ⟨hnd, List.nodup_singleton k, fun x hx hx1 => ?_⟩
        rw [List.mem_singleton] at hx1
        exact hk (hx1 ▸ hx)
      · rw [List.pairwise_append]
        refine ⟨hpw, List.pairwise_singleton _ _, fun a ha b hb => ?_⟩
        rw [List.mem_singleton] at hb
        subst hb
        rw [hidx]
        exact hbd a ha
      · rw [hlen]
        rw [List.mem_append, List.mem_singleton] at hx
        rcases hx with hx | rfl
        · have := hbd x hx; omega
        · rw [hidx]; omega

/-- The ordered list of distinct cited keys has no duplicates, holds exactly
the cited keys, and is sorted by position of first appearance in the flat
key sequence. -/
theorem citedKeysList_spec (doc : List Char) :
    (∀ x, x ∈ citedKeysList doc ↔ x ∈ allKeys doc) ∧
      (citedKeysList doc).Nodup ∧
      (citedKeysList doc).Pairwise
        (fun a b => (allKeys doc).indexOf a < (allKeys doc).indexOf b) :=
  foldl_insertKey_spec (allKeys doc) (allKeys doc) [] []
    (by simp) (by simp) (by simp) (by simp) (by simp)

/-- Folding dict inserts of enumerated pairs with fresh, pairwise-distinct
keys: lookup afterwards agrees with the first matching pair, falling back to
the initial map. -/
theorem lookup_foldl_insert (ps : List (Nat × String)) :
    ∀ (m : List (String × Nat)) (k : String),
      (ps.map Prod.snd).Nodup → (∀ q ∈ ps, List.lookup q.2 m = none) →
      List.lookup k (ps.foldl (fun m p => insertKV m p.2 (p.1 + 1)) m)
        = match ps.find? (fun p => p.2 == k) with
          | some p => some (p.1 + 1)
          | none => List.lookup k m := by
  induction ps with
  | nil => intro m k _ _; rfl
  | cons p ps ih =>
    intro m k hnd hfresh
    obtain ⟨i, a⟩ := p
    rw [List.foldl_cons]
    have hna : a ∉ ps.map Prod.snd := by
      rw [List.map_cons] at hnd
      exact (List.nodup_cons.mp hnd).1
    have hnd2 : (ps.map Prod.snd).Nodup := by
      rw [List.map_cons] at hnd
      exact (List.nodup_cons.mp hnd).2
    have hfresh2 : ∀ q ∈ ps, List.lookup q.2 (insertKV m a (i + 1)) = none := by
      intro q hq
      have hqa : q.2 ≠ a := fun he => hna (he ▸ List.mem_map_of_mem Prod.snd hq)
      rw [lookup_insertKV_ne m a q.2 (i + 1) hqa]
      exact hfresh q (List.mem_cons_of_mem _ hq)
    rw [ih (insertKV m a (i + 1)) k hnd2 hfresh2]
    rw [List.find?_cons]
    by_cases hak : a = k
    · subst hak
      have hfind : ps.find? (fun p => p.2 == a) = none := by
        rw [List.find?_eq_none]
        intro x hx
        simp only [beq_iff_eq]
        intro he
        exact hna (he ▸ List.mem_map_of_mem Prod.snd hx)
      rw [hfind]
      simp [lookup_insertKV]
    · have hpred : (((i, a) : Nat × String).2 == k) = false := by simp [hak]
      simp only [hpred]
      cases hf : ps.find? (fun p => p.2 == k) with
      | some q => rfl
      | none => exact lookup_insertKV_ne m a k (i + 1) (fun he => hak he.symm)

/-- Finding a key among enumerated pairs when the key is absent. -/
theorem enumFrom_find?_of_not_mem (L : List String) :
    ∀ (n : Nat) (k : String), k ∉ L →
      (List.enumFrom n L).find? (fun p => p.2 == k) = none := by
  induction L with
  | nil => intro n k _; rfl
  | cons a l ih =>
    intro n k hk
    have ha : ((fun p : Nat × String => p.2 == k) (n, a)) = false := by
      simp only [beq_eq_false_iff_ne, ne_eq]
      exact fun h => hk (List.mem_cons.mpr (Or.inl h.symm))
    show List.find? _ ((n, a) :: List.enumFrom (n + 1) l) = none
    rw [List.find?_cons]
    simp only [ha]
    exact ih (n + 1) k (fun h => hk (List.mem_cons.mpr (Or.inr h)))

/-- Finding a key among enumerated pairs yields its first-appearance index
shifted by the enumeration offset. -/
theorem enumFrom_find?_of_mem (L : List String) :
    ∀ (n : Nat) (k : String), k ∈ L →
      (List.enumFrom n L).find? (fun p => p.2 == k)
        = some (n + List.indexOf k L, k) := by
  induction L with
  | nil => intro n k hk; exact absurd hk (List.not_mem_nil k)
  | cons a l ih =>
    intro n k hk
    by_cases h : a = k
    · subst h
      show List.find? _ ((n, a) :: List.enumFrom (n + 1) l) = _
      rw [List.find?_cons]
      simp [List.indexOf_cons_self]
    · have hkl : k ∈ l := by
        rcases List.mem_cons.mp hk with h1 | h1
        · exact absurd h1.symm h
        · exact h1
      show List.find? _ ((n, a) :: List.enumFrom (n + 1) l) = _
      rw [List.find?_cons]
      have ha : ((fun p : Nat × String => p.2 == k) (n, a)) = false := by simp [h]
      simp only [ha]
      rw [ih (n + 1) k hkl, List.indexOf_cons_ne l h]
      have harith : n + 1 + List.indexOf k l = n + (List.indexOf k l).succ := by omega
      rw [harith]

/-- The citation map realises first-appearance numbering: the number of a
cited key is its index in the ordered distinct-key list plus one, and keys
never cited have no number. -/
theorem citationNumber_eq (doc : List Char) (k : String) :
    citationNumber doc k =
      if k ∈ citedKeysList doc then some ((citedKeysList doc).indexOf k + 1)
      else none := by
  have hnd : (citedKeysList doc).Nodup := (citedKeysList_spec doc).2.1
  have hfold := lookup_foldl_insert ((citedKeysList doc).enum) [] k
    (by rw [List.enum_map_snd]; exact hnd) (fun q _ => rfl)
  show List.lookup k (citationMap doc) = _
  rw [show citationMap doc
      = ((citedKeysList doc).enum).foldl (fun m p => insertKV m p.2 (p.1 + 1)) [] from rfl]
  rw [hfold]
  by_cases hk : k ∈ citedKeysList doc
  · rw [show (citedKeysList doc).enum = List.enumFrom 0 (citedKeysList doc) from rfl]
    rw [enumFrom_find?_of_mem _ 0 k hk]
    simp [hk]
  · rw [show (citedKeysList doc).enum = List.enumFrom 0 (citedKeysList doc) from rfl]
    rw [enumFrom_find?_of_not_mem _ 0 k hk]
    simp [hk]

/-- On a duplicate-free list the index of the element at position `i` is
`i`. -/
theorem indexOf_get_of_nodup (L : List String) :
    ∀ (_ : L.Nodup) (i : Nat) (h : i < L.length), List.indexOf (L.get ⟨i, h⟩) L = i := by
  induction L with
  | nil => intro _ i h; exact absurd h (by simp)
  | cons a l ih =>
    intro hnd i h
    cases i with
    | zero => exact List.indexOf_cons_self a l
    | succ n =>
      have hn : n < l.length := by simpa using h
      have hg : (a :: l).get ⟨n + 1, h⟩ = l.get ⟨n, hn⟩ := rfl
      rw [hg]
      have hmem : l.get ⟨n, hn⟩ ∈ l := List.get_mem l n hn
      have hna : a ≠ l.get ⟨n, hn⟩ := fun he => (List.nodup_cons.mp hnd).1 (he ▸ hmem)
      rw [List.indexOf_cons_ne l hna, ih (List.nodup_cons.mp hnd).2 n hn]

/-- C6: the ordered distinct-key list is duplicate-free, holds exactly the
cited keys, is sorted by first-appearance position in the flat key sequence
(markers in document order, keys left-to-right within a marker), each cited
key is numbered index-plus-one, and the assigned numbers are exactly
`1, ..., k` for `k` distinct cited keys. -/
theorem c6_first_appearance_numbering (doc : List Char) :
    (citedKeysList doc).Nodup ∧
    (∀ x, x ∈ citedKeysList doc ↔ x ∈ allKeys doc) ∧
    (citedKeysList doc).Pairwise
      (fun a b => (allKeys doc).indexOf a < (allKeys doc).indexOf b) ∧
    (∀ k, citationNumber doc k =
      if k ∈ citedKeysList doc then some ((citedKeysList doc).indexOf k + 1)
      else none) ∧
    (∀ n, (∃ k, k ∈ citedKeysList doc ∧ citationNumber doc k = some n) ↔
      1 ≤ n ∧ n ≤ (citedKeysList doc).length) := by
  obtain ⟨hmem, hnd, hpw⟩ := citedKeysList_spec doc
  refine ⟨hnd, hmem, hpw, fun k => citationNumber_eq doc k, fun n => ?_⟩
  constructor
  · rintro ⟨k, hk, hn⟩
    rw [citationNumber_eq doc k, if_pos hk] at hn
    have hidx : List.indexOf k (citedKeysList doc) < (citedKeysList doc).length :=
      List.indexOf_lt_length.mpr hk
    have he : List.indexOf k (citedKeysList doc) + 1 = n := Option.some.inj hn
    omega
  · rintro ⟨h1, h2⟩
    have hlt : n - 1 < (citedKeysList doc).length := by omega
    refine ⟨(citedKeysList doc).get ⟨n - 1, hlt⟩, List.get_mem _ _ _, ?_⟩
    rw [citationNumber_eq doc _, if_pos (List.get_mem _ _ _)]
    rw [indexOf_get_of_nodup _ hnd (n - 1) hlt]
    have he : n - 1 + 1 = n := by omega
    rw [he]

/-!
Machinery for the no-marker round-trip theorem (C8).
-/

/-- When the scanning pass finds no marker, the replacement pass is the
identity (with the shared fuel at least the input length, as in the
orchestrator). -/
theorem subAux_eq_of_scanAux_nil (f : List Char → List Char) :
    ∀ (fuel : Nat) (s : List Char), s.length ≤ fuel → scanAux fuel s = [] →
      subAux f fuel s = s := by
  intro fuel
  induction fuel with
  | zero => intro s _ _; rfl
  | succ n ih =>
    intro s hlen hscan
    cases s with
    | nil => rfl
    | cons c cs =>
      cases hm : matchCite (c :: cs) with
      | some pr =>
        exfalso
        obtain ⟨i, r⟩ := pr
        have : scanAux (n + 1) (c :: cs) = i :: scanAux n r := by
          simp [scanAux, hm]
        rw [this] at hscan
        exact absurd hscan (by simp)
      | none =>
        have h1 : scanAux (n + 1) (c :: cs) = scanAux n cs := by simp [scanAux, hm]
        have h2 : subAux f (n + 1) (c :: cs) = c :: subAux f n cs := by simp [subAux, hm]
        have h3 : cs.length ≤ n := by
          have := hlen
          simp only [List.length_cons] at this
          omega
        rw [h2, ih cs h3 (h1 ▸ hscan)]

/-- C8: a document in which the scanner finds no citation marker passes
through the rewrite unchanged, produces an empty reference list, and the
final output is the document itself (plus the trailing newline of `print`)
with no reference section appended. -/
theorem c8_no_markers_is_noop (bib : List (String × List (String × String)))
    (doc : List Char) (h : scanCites doc = []) :
    modifiedText doc = doc ∧ referencesList bib doc = [] ∧
      finalOutput bib doc = doc ++ ['\n'] := by
  have hm : modifiedText doc = doc :=
    subAux_eq_of_scanAux_nil (renderMarker (citationNumber doc)) doc.length doc
      (Nat.le_refl _) h
  have hr : referencesList bib doc = [] := by
    simp [referencesList, citedKeysList, allKeys, h]
  refine ⟨hm, hr, ?_⟩
  simp [finalOutput, hr, hm]

/-- C8 witness: a concrete marker-free document (it even contains a
bracketed number, as the round-trip sentence describes). -/
theorem c8_witness :
    scanCites (("hello [1] world").data) = [] ∧
    modifiedText (("hello [1] world").data) = ("hello [1] world").data ∧
    referencesList [] (("hello [1] world").data) = [] ∧
    finalOutput [] (("hello [1] world").data) = ("hello [1] world").data ++ ['\n'] :=
  ⟨by decide, c8_no_markers_is_noop [] (("hello [1] world").data) (by decide)⟩

